import Mathlib

/-!
Verification of the deterministic core of the skilldiffuser repository:
the skill-statistics aggregator `get_skill_summary` and the transcript
loader `load_transcriptions_from_file`, embedded shallowly in Lean.
Python dictionaries are modelled as insertion-ordered association lists,
Python strings as `String` (aggregator) and `List Char` (loader).
-/

namespace SkillDiffuser

/-- Embeds the pydantic model `Skill` of skilldiffuser.py. -/
structure Skill where
  name : String
  description : String
  quote : String
  timestamp : String
  effectiveness : String
deriving DecidableEq, Repr

/-- Embeds the pydantic model `CallAnalysis` of skilldiffuser.py. -/
structure CallAnalysis where
  call_id : String
  skills : List Skill
  overall_assessment : String
  key_insights : List String
deriving DecidableEq, Repr

/-- The inner `effectiveness_distribution` dictionary built by `get_skill_summary`. -/
structure EffectivenessDistribution where
  high : Nat
  medium : Nat
  low : Nat
deriving DecidableEq, Repr

/-- One entry of the `skill_stats` dictionary built by `get_skill_summary`. -/
structure SkillStatistic where
  frequency : Nat
  effectiveness_distribution : EffectivenessDistribution
  avg_effectiveness : ℚ
deriving DecidableEq, Repr

/-- The dictionary returned by `get_skill_summary`. -/
structure SkillSummary where
  total_calls_analyzed : Nat
  unique_skills_found : Nat
  skill_statistics : List (String × SkillStatistic)
deriving DecidableEq, Repr

/-- Lookup in a Python dict modelled as an insertion-ordered association list. -/
def dictGet? {α : Type} (d : List (String × α)) (k : String) : Option α :=
  match d with
  | [] => none
  | (k1, v) :: rest => if k1 = k then some v else dictGet? rest k

/-- Assignment `d[k] = v` on a Python dict: replaces in place if the key is
present, otherwise appends the new binding at the end (insertion order). -/
def dictSet {α : Type} (d : List (String × α)) (k : String) (v : α) : List (String × α) :=
  match d with
  | [] => [(k, v)]
  | (k1, v1) :: rest => if k1 = k then (k, v) :: rest else (k1, v1) :: dictSet rest k v

/-- State of the first loop of `get_skill_summary`: the pair of dicts
`skill_counts` and `skill_effectiveness`. -/
abbrev AggState : Type := List (String × Nat) × List (String × List String)

/-- One iteration of the inner loop of `get_skill_summary` for one `skill`
occurrence: initialize a zero statistic on first sight of the name, then
increment the count and append the effectiveness value. -/
def recordSkill (st : AggState) (sk : Skill) : AggState :=
  let nm := sk.name
  let st1 : AggState :=
    if (dictGet? st.1 nm).isNone then
      (dictSet st.1 nm 0, dictSet st.2 nm [])
    else st
  (dictSet st1.1 nm ((dictGet? st1.1 nm).getD 0 + 1),
   dictSet st1.2 nm ((dictGet? st1.2 nm).getD [] ++ [sk.effectiveness]))

/-- The statistic computed for one skill name in the second loop of
`get_skill_summary` from its count and its list of effectiveness values. -/
def mkStat (counts : Nat) (effs : List String) : SkillStatistic :=
  let high_count := effs.count "high"
  let medium_count := effs.count "medium"
  let low_count := effs.count "low"
  { frequency := counts
    effectiveness_distribution :=
      { high := high_count, medium := medium_count, low := low_count }
    avg_effectiveness := if 0 < counts then (high_count : ℚ) / (counts : ℚ) else 0 }

/-- Embeds `SkillDiffuser.get_skill_summary` of skilldiffuser.py. -/
def get_skill_summary (analyses : List CallAnalysis) : SkillSummary :=
  let st := analyses.foldl (fun st a => a.skills.foldl recordSkill st) ([], [])
  let skill_counts := st.1
  let skill_effectiveness := st.2
  let skill_stats := skill_counts.map
    (fun p => (p.1, mkStat p.2 ((dictGet? skill_effectiveness p.1).getD [])))
  { total_calls_analyzed := analyses.length
    unique_skills_found := skill_counts.length
    skill_statistics := skill_stats }

/-- All `(analysis, skill)` pairs of the pass, flattened in iteration order. -/
def allSkills (analyses : List CallAnalysis) : List Skill :=
  (analyses.map CallAnalysis.skills).flatten

/-- The skill names of a list of skill occurrences, in order. -/
def namesOf (ss : List Skill) : List String :=
  ss.map Skill.name

/-- The effectiveness values of all occurrences of one skill name, in order. -/
def effsOf (ss : List Skill) (nm : String) : List String :=
  (ss.filter (fun sk => sk.name == nm)).map Skill.effectiveness

/-- Count of skill occurrences with a given name. -/
def freqSpec (ss : List Skill) (nm : String) : Nat :=
  ss.countP (fun sk => sk.name == nm)

/-- Count of skill occurrences with a given name and a given effectiveness label. -/
def bucketSpec (ss : List Skill) (nm lab : String) : Nat :=
  ss.countP (fun sk => sk.effectiveness == lab && sk.name == nm)

/-- The statistic predicted for one skill name directly from the input list. -/
def statFor (ss : List Skill) (nm : String) : SkillStatistic :=
  mkStat (effsOf ss nm).length (effsOf ss nm)

/-- Invariant of the first loop of `get_skill_summary`: after the prefix `ss`
of the skill-occurrence stream has been processed, `skill_counts` maps each
name seen so far to its number of occurrences, `skill_effectiveness` maps it
to its list of effectiveness values in order, the keys are distinct, and the
key set is the set of names seen so far. -/
def Inv (ss : List Skill) (st : AggState) : Prop :=
  (∀ nm : String, dictGet? st.1 nm =
      if nm ∈ namesOf ss then some (effsOf ss nm).length else none) ∧
  (∀ nm : String, dictGet? st.2 nm =
      if nm ∈ namesOf ss then some (effsOf ss nm) else none) ∧
  (st.1.map Prod.fst).Nodup ∧
  (∀ nm : String, nm ∈ st.1.map Prod.fst ↔ nm ∈ namesOf ss)

/-- Scenario B of the specification, section 8. -/
def scenarioB : List CallAnalysis :=
  [ { call_id := "call1"
      skills :=
        [ { name := "Rapport", description := "", quote := "", timestamp := ""
            effectiveness := "high" }
        , { name := "Urgency", description := "", quote := "", timestamp := ""
            effectiveness := "medium" } ]
      overall_assessment := ""
      key_insights := [] }
  , { call_id := "call2"
      skills :=
        [ { name := "Rapport", description := "", quote := "", timestamp := ""
            effectiveness := "low" } ]
      overall_assessment := ""
      key_insights := [] } ]

/-- The summary the specification expects for scenario B. -/
def scenarioBExpected : SkillSummary :=
  { total_calls_analyzed := 2
    unique_skills_found := 2
    skill_statistics :=
      [ ("Rapport",
          { frequency := 2
            effectiveness_distribution := { high := 1, medium := 0, low := 1 }
            avg_effectiveness := (1 : ℚ) / 2 })
      , ("Urgency",
          { frequency := 1
            effectiveness_distribution := { high := 0, medium := 1, low := 0 }
            avg_effectiveness := 0 }) ] }

/-! The transcript loader, modelled over `List Char`. -/

/-- The whitespace test of Python str.strip, for ASCII text. -/
def isPySpace (c : Char) : Bool :=
  c = ' ' || c = '\t' || c = '\n' || c = '\r' || c = '\x0b' || c = '\x0c'

/-- Remove leading whitespace. -/
def stripLeft (s : List Char) : List Char := s.dropWhile isPySpace

/-- Remove trailing whitespace. -/
def stripRight (s : List Char) : List Char := (s.reverse.dropWhile isPySpace).reverse

/-- Python str.strip: remove leading and trailing whitespace. -/
def pyStrip (s : List Char) : List Char := stripRight (stripLeft s)

/-- Scanner of Python str.split for the nonempty separator c0 :: sep2:
emit the accumulated piece at each non-overlapping occurrence, left to right. -/
def splitOnAux (c0 : Char) (sep2 : List Char) (acc content : List Char) :
    List (List Char) :=
  match content with
  | [] => [acc.reverse]
  | c :: rest =>
    if (c0 :: sep2).isPrefixOf (c :: rest) then
      acc.reverse :: splitOnAux c0 sep2 [] (rest.drop sep2.length)
    else
      splitOnAux c0 sep2 (c :: acc) rest
termination_by content.length
decreasing_by
  · simp only [List.length_cons, List.length_drop]
    omega
  · simp

/-- Python content.split(sep); the result always has at least one piece. -/
def pySplit (sep content : List Char) : List (List Char) :=
  match sep with
  | [] => [content]
  | c0 :: sep2 => splitOnAux c0 sep2 [] content

/-- Scanner of Python str.split with maxsplit 1: stop at the first occurrence. -/
def splitOnceAux (c0 : Char) (sep2 : List Char) (acc content : List Char) :
    List (List Char) :=
  match content with
  | [] => [acc.reverse]
  | c :: rest =>
    if (c0 :: sep2).isPrefixOf (c :: rest) then
      [acc.reverse, rest.drop sep2.length]
    else
      splitOnceAux c0 sep2 (c :: acc) rest

/-- Python content.split(sep, 1): one or two pieces. -/
def pySplitOnce (sep content : List Char) : List (List Char) :=
  match sep with
  | [] => [content]
  | c0 :: sep2 => splitOnceAux c0 sep2 [] content

/-- Scanner of Python content.replace(sep, ""): delete every non-overlapping
occurrence of the separator, left to right. -/
def replaceAux (c0 : Char) (sep2 : List Char) (content : List Char) : List Char :=
  match content with
  | [] => []
  | c :: rest =>
    if (c0 :: sep2).isPrefixOf (c :: rest) then
      replaceAux c0 sep2 (rest.drop sep2.length)
    else
      c :: replaceAux c0 sep2 rest
termination_by content.length
decreasing_by
  · simp only [List.length_cons, List.length_drop]
    omega
  · simp

/-- Python content.replace(sep, ""). -/
def pyReplaceDel (sep content : List Char) : List Char :=
  match sep with
  | [] => content
  | c0 :: sep2 => replaceAux c0 sep2 content

/-- Python sep in content: substring occurrence test. -/
def containsSub (sep content : List Char) : Bool :=
  match content with
  | [] => sep.isEmpty
  | c :: rest => sep.isPrefixOf (c :: rest) || containsSub sep rest

/-- The section-opening marker of the transcript file format. -/
def callMarker : List Char := "---CALL_ID:".toList

/-- The separator between a call identifier and the transcript body. -/
def dashSep : List Char := "---".toList

/-- The section-closing marker of the transcript file format. -/
def endMarker : List Char := "---END---".toList

/-- The first six characters of the closing marker; a body free of this
substring can neither contain the closing marker nor straddle one. -/
def endHead : List Char := "---END".toList

/-- A record produced by the loader: one dictionary of the returned list. -/
structure TranscriptRecord where
  call_id : List Char
  transcript : List Char
deriving DecidableEq, Repr

/-- The per-section body of the loop of load_transcriptions_from_file:
sections with no closing marker are skipped; otherwise the text before the
first occurrence of three dashes is the stripped identifier and the rest,
with every occurrence of the closing marker deleted, is the stripped
transcript. -/
def processSection (sec : List Char) : Option TranscriptRecord :=
  if containsSub endMarker sec then
    let parts := pySplitOnce dashSep sec
    let call_id := pyStrip (parts.headD [])
    let transcript_part := if 1 < parts.length then parts.getD 1 [] else []
    some { call_id := call_id
           transcript := pyStrip (pyReplaceDel endMarker transcript_part) }
  else
    none

/-- Embeds load_transcriptions_from_file of skilldiffuser.py, applied to the
already-read file content: split on the opening marker, skip the first piece,
and keep one record per piece that contains the closing marker. -/
def load_transcriptions (content : List Char) : List TranscriptRecord :=
  ((pySplit callMarker content).drop 1).filterMap processSection

/-- One well-formed section of the input format: identifier, body, and the
separator text that follows it (up to the next section or the end of file). -/
structure RawSection where
  ident : List Char
  body : List Char
  trail : List Char
deriving DecidableEq, Repr

/-- The text of one section after its opening marker: identifier, separator,
body, closing marker, trailing text, associated to the right. -/
def gapOf (s : RawSection) : List Char :=
  s.ident ++ (dashSep ++ (s.body ++ (endMarker ++ s.trail)))

/-- The text of one section together with its trailing separator text. -/
def renderSection (s : RawSection) : List Char :=
  callMarker ++ gapOf s

/-- A transcript file: arbitrary text before the first marker followed by the
rendered sections. -/
def renderFile (pre : List Char) (secs : List RawSection) : List Char :=
  pre ++ (secs.map renderSection).flatten

/-- Well-formedness of a section: the identifier contains no three-dash run
and does not end in a dash, the body contains no prefix of the closing
marker long enough to produce an occurrence of it, no opening marker occurs
anywhere inside the section, and the trailing text is whitespace. -/
def WFSection (s : RawSection) : Prop :=
  containsSub dashSep s.ident = false ∧
  ¬ (['-'] <:+ s.ident) ∧
  containsSub endHead s.body = false ∧
  containsSub callMarker (gapOf s) = false ∧
  (∀ c ∈ s.trail, isPySpace c = true)

instance (s : RawSection) : Decidable (WFSection s) := by
  unfold WFSection
  infer_instance

/-- No occurrence of the separator begins strictly inside `a` when the text
`a ++ (sep ++ b)` is scanned left to right. -/
def NoHit (sep a b : List Char) : Prop :=
  ∀ a1 a2 : List Char, a = a1 ++ a2 → a2 ≠ [] → ¬ sep <+: (a2 ++ (sep ++ b))


/-- A one-call input whose single skill has an unrecognized effectiveness
label, used to separate frequency from the distribution buckets. -/
def c3Input : List CallAnalysis :=
  [ { call_id := "c"
      skills := [{ name := "S", description := "", quote := "", timestamp := ""
                   effectiveness := "great" }]
      overall_assessment := ""
      key_insights := [] } ]

/-- Scenario B with the two analyses in the opposite order. -/
def scenarioBRev : List CallAnalysis := scenarioB.reverse

/-- The single section of example scenario A of the specification. -/
def scenarioASection : RawSection :=
  { ident := "C1".toList, body := "\nHello world\n".toList, trail := [] }

/-! Dictionary lemmas. -/

theorem dictGet?_dictSet_self {α : Type} (d : List (String × α)) (k : String) (v : α) :
    dictGet? (dictSet d k v) k = some v := by
  induction d with
  | nil => simp [dictGet?, dictSet]
  | cons p rest ih =>
    obtain ⟨k1, v1⟩ := p
    by_cases h : k1 = k
    · simp [dictGet?, dictSet, h]
    · simp [dictGet?, dictSet, h, ih]

theorem dictGet?_dictSet_ne {α : Type} (d : List (String × α)) (k k2 : String) (v : α)
    (h : k ≠ k2) : dictGet? (dictSet d k v) k2 = dictGet? d k2 := by
  induction d with
  | nil => simp [dictGet?, dictSet, h]
  | cons p rest ih =>
    obtain ⟨k1, v1⟩ := p
    by_cases h1 : k1 = k
    · subst h1
      simp [dictGet?, dictSet, h]
    · simp [dictGet?, dictSet, h1, ih]

theorem mem_keys_dictSet {α : Type} (d : List (String × α)) (k k2 : String) (v : α) :
    k2 ∈ (dictSet d k v).map Prod.fst ↔ k2 = k ∨ k2 ∈ d.map Prod.fst := by
  induction d with
  | nil => simp [dictSet]
  | cons p rest ih =>
    obtain ⟨k1, v1⟩ := p
    by_cases h1 : k1 = k
    · subst h1
      simp [dictSet]
    · simp [dictSet, h1, ih]
      tauto

theorem nodup_keys_dictSet {α : Type} (d : List (String × α)) (k : String) (v : α)
    (h : (d.map Prod.fst).Nodup) : ((dictSet d k v).map Prod.fst).Nodup := by
  induction d with
  | nil => simp [dictSet]
  | cons p rest ih =>
    obtain ⟨k1, v1⟩ := p
    simp only [List.map_cons, List.nodup_cons] at h
    by_cases h1 : k1 = k
    · have hset : dictSet ((k1, v1) :: rest) k v = (k, v) :: rest := by
        simp [dictSet, h1]
      rw [hset]
      simp only [List.map_cons, List.nodup_cons]
      subst h1
      exact h
    · simp only [dictSet, if_neg h1, List.map_cons, List.nodup_cons]
      refine ⟨?_, ih h.2⟩
      rw [mem_keys_dictSet]
      push_neg
      exact ⟨h1, h.1⟩

theorem dictGet?_of_mem_of_nodup {α : Type} (d : List (String × α)) (k : String) (v : α)
    (hmem : (k, v) ∈ d) (hnd : (d.map Prod.fst).Nodup) : dictGet? d k = some v := by
  induction d with
  | nil => cases hmem
  | cons p rest ih =>
    obtain ⟨k1, v1⟩ := p
    simp only [List.map_cons, List.nodup_cons] at hnd
    rcases List.mem_cons.mp hmem with heq | htail
    · obtain ⟨hk, hv⟩ := Prod.mk.injEq .. ▸ heq
      subst hk; subst hv
      simp [dictGet?]
    · have hk : k1 ≠ k := by
        intro hh
        subst hh
        exact hnd.1 (List.mem_map.mpr ⟨(k1, v), htail, rfl⟩)
      simp [dictGet?, hk, ih htail hnd.2]

theorem dictGet?_stats_map (eff : List (String × List String)) (d : List (String × Nat))
    (k : String) :
    dictGet? (d.map (fun p => (p.1, mkStat p.2 ((dictGet? eff p.1).getD [])))) k =
      (dictGet? d k).map (fun c => mkStat c ((dictGet? eff k).getD [])) := by
  induction d with
  | nil => rfl
  | cons p rest ih =>
    obtain ⟨k1, v1⟩ := p
    by_cases h : k1 = k
    · subst h
      simp [dictGet?]
    · simp [dictGet?, h, ih]

/-! Lemmas about the per-name projections of the skill stream. -/

theorem namesOf_append (ss ts : List Skill) :
    namesOf (ss ++ ts) = namesOf ss ++ namesOf ts := by
  simp [namesOf]

theorem effsOf_append (ss ts : List Skill) (nm : String) :
    effsOf (ss ++ ts) nm = effsOf ss nm ++ effsOf ts nm := by
  simp [effsOf]

theorem effsOf_singleton_pos (sk : Skill) (nm : String) (h : sk.name = nm) :
    effsOf [sk] nm = [sk.effectiveness] := by
  simp [effsOf, List.filter_cons, h]

theorem effsOf_singleton_neg (sk : Skill) (nm : String) (h : ¬ sk.name = nm) :
    effsOf [sk] nm = [] := by
  simp [effsOf, List.filter_cons, h]

theorem effsOf_not_mem (ss : List Skill) (nm : String) (h : nm ∉ namesOf ss) :
    effsOf ss nm = [] := by
  rw [effsOf]
  rw [List.map_eq_nil_iff]
  rw [List.filter_eq_nil_iff]
  intro sk hsk hbeq
  exact h (List.mem_map.mpr ⟨sk, hsk, beq_iff_eq.mp hbeq⟩)

/-! The loop invariant of the aggregation pass. -/

theorem inv_nil : Inv [] ([], []) := by
  refine ⟨?_, ?_, ?_, ?_⟩ <;> simp [dictGet?, namesOf]

theorem inv_step (ss : List Skill) (st : AggState) (sk : Skill) (h : Inv ss st) :
    Inv (ss ++ [sk]) (recordSkill st sk) := by
  obtain ⟨h1, h2, h3, h4⟩ := h
  by_cases hmem : sk.name ∈ namesOf ss
  · have hc : dictGet? st.1 sk.name = some (effsOf ss sk.name).length := by
      rw [h1]; simp [hmem]
    have he : dictGet? st.2 sk.name = some (effsOf ss sk.name) := by
      rw [h2]; simp [hmem]
    have hrec : recordSkill st sk =
        (dictSet st.1 sk.name ((effsOf ss sk.name).length + 1),
         dictSet st.2 sk.name (effsOf ss sk.name ++ [sk.effectiveness])) := by
      unfold recordSkill
      simp [hc, he]
    rw [hrec]
    refine ⟨?_, ?_, ?_, ?_⟩
    · intro nm
      by_cases hnm : nm = sk.name
      · subst hnm
        rw [dictGet?_dictSet_self]
        rw [namesOf_append, effsOf_append, effsOf_singleton_pos sk _ rfl]
        simp [namesOf]
      · rw [dictGet?_dictSet_ne _ _ _ _ (Ne.symm hnm), h1]
        rw [namesOf_append, effsOf_append, effsOf_singleton_neg sk nm (fun hh => hnm hh.symm)]
        simp [namesOf, hnm]
    · intro nm
      by_cases hnm : nm = sk.name
      · subst hnm
        rw [dictGet?_dictSet_self]
        rw [namesOf_append, effsOf_append, effsOf_singleton_pos sk _ rfl]
        simp [namesOf]
      · rw [dictGet?_dictSet_ne _ _ _ _ (Ne.symm hnm), h2]
        rw [namesOf_append, effsOf_append, effsOf_singleton_neg sk nm (fun hh => hnm hh.symm)]
        simp [namesOf, hnm]
    · exact nodup_keys_dictSet _ _ _ h3
    · intro nm
      have hns : namesOf [sk] = [sk.name] := rfl
      rw [mem_keys_dictSet, h4 nm, namesOf_append, hns, List.mem_append, List.mem_singleton]
      tauto
  · have hc : dictGet? st.1 sk.name = none := by
      rw [h1]; simp [hmem]
    have he : dictGet? st.2 sk.name = none := by
      rw [h2]; simp [hmem]
    have hrec : recordSkill st sk =
        (dictSet (dictSet st.1 sk.name 0) sk.name 1,
         dictSet (dictSet st.2 sk.name []) sk.name [sk.effectiveness]) := by
      unfold recordSkill
      simp [hc, he, dictGet?_dictSet_self]
    rw [hrec]
    have heno : effsOf ss sk.name = [] := effsOf_not_mem ss sk.name hmem
    refine ⟨?_, ?_, ?_, ?_⟩
    · intro nm
      by_cases hnm : nm = sk.name
      · subst hnm
        rw [dictGet?_dictSet_self]
        rw [namesOf_append, effsOf_append, effsOf_singleton_pos sk _ rfl, heno]
        simp [namesOf]
      · rw [dictGet?_dictSet_ne _ _ _ _ (Ne.symm hnm),
          dictGet?_dictSet_ne _ _ _ _ (Ne.symm hnm), h1]
        rw [namesOf_append, effsOf_append, effsOf_singleton_neg sk nm (fun hh => hnm hh.symm)]
        simp [namesOf, hnm]
    · intro nm
      by_cases hnm : nm = sk.name
      · subst hnm
        rw [dictGet?_dictSet_self]
        rw [namesOf_append, effsOf_append, effsOf_singleton_pos sk _ rfl, heno]
        simp [namesOf]
      · rw [dictGet?_dictSet_ne _ _ _ _ (Ne.symm hnm),
          dictGet?_dictSet_ne _ _ _ _ (Ne.symm hnm), h2]
        rw [namesOf_append, effsOf_append, effsOf_singleton_neg sk nm (fun hh => hnm hh.symm)]
        simp [namesOf, hnm]
    · exact nodup_keys_dictSet _ _ _ (nodup_keys_dictSet _ _ _ h3)
    · intro nm
      have hns : namesOf [sk] = [sk.name] := rfl
      rw [mem_keys_dictSet, mem_keys_dictSet, h4 nm, namesOf_append, hns,
        List.mem_append, List.mem_singleton]
      tauto

theorem inv_foldl (ss : List Skill) : Inv ss (ss.foldl recordSkill ([], [])) := by
  induction ss using List.reverseRecOn with
  | nil => exact inv_nil
  | append_singleton t sk ih =>
    rw [List.foldl_append]
    exact inv_step t _ sk ih

theorem allSkills_cons (a : CallAnalysis) (rest : List CallAnalysis) :
    allSkills (a :: rest) = a.skills ++ allSkills rest := by
  simp [allSkills]

theorem foldl_analyses_eq (analyses : List CallAnalysis) (init : AggState) :
    analyses.foldl (fun st a => a.skills.foldl recordSkill st) init =
      (allSkills analyses).foldl recordSkill init := by
  induction analyses generalizing init with
  | nil => rfl
  | cons a rest ih =>
    rw [allSkills_cons, List.foldl_append, List.foldl_cons]
    exact ih _

/-! Characterization of `get_skill_summary`. -/

theorem summary_total (analyses : List CallAnalysis) :
    (get_skill_summary analyses).total_calls_analyzed = analyses.length := rfl

theorem summary_lookup (analyses : List CallAnalysis) (nm : String) :
    dictGet? (get_skill_summary analyses).skill_statistics nm =
      if nm ∈ namesOf (allSkills analyses) then some (statFor (allSkills analyses) nm)
      else none := by
  obtain ⟨h1, h2, h3, h4⟩ := inv_foldl (allSkills analyses)
  simp only [get_skill_summary]
  rw [foldl_analyses_eq]
  rw [dictGet?_stats_map]
  rw [h1 nm]
  by_cases hm : nm ∈ namesOf (allSkills analyses)
  · simp only [hm, if_true, Option.map_some]
    rw [h2 nm]
    simp [hm, statFor]
  · simp [hm]

theorem summary_unique (analyses : List CallAnalysis) :
    (get_skill_summary analyses).unique_skills_found =
      (namesOf (allSkills analyses)).dedup.length := by
  obtain ⟨h1, h2, h3, h4⟩ := inv_foldl (allSkills analyses)
  simp only [get_skill_summary]
  rw [foldl_analyses_eq]
  have hkl : ((allSkills analyses).foldl recordSkill ([], [])).1.length =
      (((allSkills analyses).foldl recordSkill ([], [])).1.map Prod.fst).length :=
    (List.length_map _ _).symm
  rw [hkl]
  rw [← List.toFinset_card_of_nodup h3]
  rw [← List.toFinset_card_of_nodup (List.nodup_dedup (namesOf (allSkills analyses)))]
  congr 1
  ext a
  simp [h4 a, List.mem_dedup]

theorem stats_keys_nodup (analyses : List CallAnalysis) :
    ((get_skill_summary analyses).skill_statistics.map Prod.fst).Nodup := by
  obtain ⟨h1, h2, h3, h4⟩ := inv_foldl (allSkills analyses)
  simp only [get_skill_summary]
  rw [foldl_analyses_eq]
  simpa [List.map_map, Function.comp_def] using h3

theorem mem_stats_characterize (analyses : List CallAnalysis) (nm : String)
    (stat : SkillStatistic)
    (h : (nm, stat) ∈ (get_skill_summary analyses).skill_statistics) :
    nm ∈ namesOf (allSkills analyses) ∧ stat = statFor (allSkills analyses) nm := by
  have hl : dictGet? (get_skill_summary analyses).skill_statistics nm = some stat :=
    dictGet?_of_mem_of_nodup _ nm stat h (stats_keys_nodup analyses)
  rw [summary_lookup] at hl
  by_cases hm : nm ∈ namesOf (allSkills analyses)
  · rw [if_pos hm] at hl
    exact ⟨hm, (Option.some.injEq .. ▸ hl).symm⟩
  · rw [if_neg hm] at hl
    cases hl


/-! Relating the computed statistic of a name to direct counts over the input. -/

theorem effsOf_length (ss : List Skill) (nm : String) :
    (effsOf ss nm).length = freqSpec ss nm := by
  rw [effsOf, freqSpec, List.length_map, List.countP_eq_length_filter]

theorem effsOf_count (ss : List Skill) (nm lab : String) :
    (effsOf ss nm).count lab = bucketSpec ss nm lab := by
  rw [effsOf, bucketSpec, List.count_eq_countP, List.countP_map, List.countP_filter]
  rfl

theorem countP_effsOf (ss : List Skill) (nm : String) (p : String → Bool) :
    (effsOf ss nm).countP p =
      ss.countP (fun sk => p sk.effectiveness && (sk.name == nm)) := by
  rw [effsOf, List.countP_map, List.countP_filter]
  rfl

theorem statFor_frequency (ss : List Skill) (nm : String) :
    (statFor ss nm).frequency = freqSpec ss nm := effsOf_length ss nm

theorem statFor_high (ss : List Skill) (nm : String) :
    (statFor ss nm).effectiveness_distribution.high = bucketSpec ss nm "high" :=
  effsOf_count ss nm "high"

theorem statFor_medium (ss : List Skill) (nm : String) :
    (statFor ss nm).effectiveness_distribution.medium = bucketSpec ss nm "medium" :=
  effsOf_count ss nm "medium"

theorem statFor_low (ss : List Skill) (nm : String) :
    (statFor ss nm).effectiveness_distribution.low = bucketSpec ss nm "low" :=
  effsOf_count ss nm "low"

theorem freqSpec_pos (ss : List Skill) (nm : String) (h : nm ∈ namesOf ss) :
    0 < freqSpec ss nm := by
  rw [freqSpec, List.countP_pos_iff]
  obtain ⟨sk, hsk, hname⟩ := List.mem_map.mp h
  exact ⟨sk, hsk, by simp [hname]⟩

theorem mkStat_avg (c : Nat) (e : List String) (h : 0 < c) :
    (mkStat c e).avg_effectiveness = (e.count "high" : ℚ) / (c : ℚ) := by
  show (if 0 < c then ((e.count "high" : Nat) : ℚ) / (c : ℚ) else 0) = _
  rw [if_pos h]

theorem statFor_avg_mem (ss : List Skill) (nm : String) (h : nm ∈ namesOf ss) :
    (statFor ss nm).avg_effectiveness =
      (bucketSpec ss nm "high" : ℚ) / (freqSpec ss nm : ℚ) := by
  have hp : 0 < (effsOf ss nm).length := by
    rw [effsOf_length]
    exact freqSpec_pos ss nm h
  calc (statFor ss nm).avg_effectiveness
      = ((effsOf ss nm).count "high" : ℚ) / ((effsOf ss nm).length : ℚ) :=
        mkStat_avg _ _ hp
    _ = (bucketSpec ss nm "high" : ℚ) / (freqSpec ss nm : ℚ) := by
        rw [effsOf_count, effsOf_length]

theorem count_three (l : List String) :
    l.count "high" + l.count "medium" + l.count "low" =
      l.countP (fun e => e == "high" || e == "medium" || e == "low") := by
  induction l with
  | nil => rfl
  | cons e t ih =>
    simp only [List.count_cons, List.countP_cons, beq_iff_eq, Bool.or_eq_true]
    by_cases hh : e = "high"
    · subst hh
      have d1 : ¬ ("high" : String) = "medium" := by decide
      have d2 : ¬ ("high" : String) = "low" := by decide
      simp [d1, d2]
      omega
    · by_cases hm : e = "medium"
      · subst hm
        have d1 : ¬ ("medium" : String) = "high" := by decide
        have d2 : ¬ ("medium" : String) = "low" := by decide
        simp [d1, d2]
        omega
      · by_cases hl : e = "low"
        · subst hl
          have d1 : ¬ ("low" : String) = "high" := by decide
          have d2 : ¬ ("low" : String) = "medium" := by decide
          simp [d1, d2]
          omega
        · simp [hh, hm, hl]
          omega

theorem sum_buckets_eq_countP (ss : List Skill) (nm : String) :
    bucketSpec ss nm "high" + bucketSpec ss nm "medium" + bucketSpec ss nm "low" =
      (effsOf ss nm).countP (fun e => e == "high" || e == "medium" || e == "low") := by
  rw [← effsOf_count ss nm "high", ← effsOf_count ss nm "medium", ← effsOf_count ss nm "low",
    count_three]

theorem sum_buckets_le (ss : List Skill) (nm : String) :
    bucketSpec ss nm "high" + bucketSpec ss nm "medium" + bucketSpec ss nm "low" ≤
      freqSpec ss nm := by
  rw [sum_buckets_eq_countP, ← effsOf_length]
  exact List.countP_le_length _

theorem sum_buckets_eq_iff (ss : List Skill) (nm : String) :
    bucketSpec ss nm "high" + bucketSpec ss nm "medium" + bucketSpec ss nm "low" =
        freqSpec ss nm ↔
      ∀ sk ∈ ss, sk.name = nm →
        (sk.effectiveness = "high" ∨ sk.effectiveness = "medium" ∨
          sk.effectiveness = "low") := by
  rw [sum_buckets_eq_countP, ← effsOf_length, List.countP_eq_length]
  constructor
  · intro h sk hsk hname
    have hmem : sk.effectiveness ∈ effsOf ss nm := by
      rw [effsOf]
      exact List.mem_map.mpr ⟨sk, List.mem_filter.mpr ⟨hsk, by simp [hname]⟩, rfl⟩
    have := h _ hmem
    simp only [Bool.or_eq_true, beq_iff_eq] at this
    tauto
  · intro h e he
    obtain ⟨sk, hskf, heq⟩ := List.mem_map.mp he
    obtain ⟨hsk, hname⟩ := List.mem_filter.mp hskf
    subst heq
    have := h sk hsk (by simpa using hname)
    simp only [Bool.or_eq_true, beq_iff_eq]
    tauto

theorem bucketSpec_le_freqSpec (ss : List Skill) (nm lab : String) :
    bucketSpec ss nm lab ≤ freqSpec ss nm := by
  rw [bucketSpec, freqSpec]
  exact List.countP_mono_left (fun sk _ hsk => by
    simp only [Bool.and_eq_true] at hsk
    exact hsk.2)

/-! Permutation invariance of the computed statistics. -/

theorem mkStat_congr (c1 c2 : Nat) (e1 e2 : List String) (hc : c1 = c2)
    (hh : e1.count "high" = e2.count "high")
    (hm : e1.count "medium" = e2.count "medium")
    (hl : e1.count "low" = e2.count "low") :
    mkStat c1 e1 = mkStat c2 e2 := by
  subst hc
  simp only [mkStat]
  rw [hh, hm, hl]

theorem statFor_perm (ss ts : List Skill) (nm : String) (hp : ss.Perm ts) :
    statFor ss nm = statFor ts nm := by
  have hpe : (effsOf ss nm).Perm (effsOf ts nm) :=
    (hp.filter (fun sk : Skill => sk.name == nm)).map Skill.effectiveness
  exact mkStat_congr _ _ _ _ hpe.length_eq (hpe.count_eq _) (hpe.count_eq _) (hpe.count_eq _)

theorem allSkills_perm (a b : List CallAnalysis) (hp : a.Perm b) :
    (allSkills a).Perm (allSkills b) :=
  (hp.map CallAnalysis.skills).flatten


/-! Claims about the aggregator. -/

/-- C1: for every input, get_skill_summary reports the input length as
total_calls_analyzed and the number of distinct skill names as
unique_skills_found; every entry of skill_statistics has as frequency the
number of occurrences of its name, as distribution buckets the counts of
occurrences whose effectiveness is exactly "high", "medium" or "low", and as
avg_effectiveness the high count divided by the frequency; the concrete
scenario-B input yields the expected summary, and the empty input yields the
empty summary without error. -/
theorem C1_summary_correct (analyses : List CallAnalysis) :
    (get_skill_summary analyses).total_calls_analyzed = analyses.length ∧
    (get_skill_summary analyses).unique_skills_found =
      (namesOf (allSkills analyses)).dedup.length ∧
    (∀ nm stat, (nm, stat) ∈ (get_skill_summary analyses).skill_statistics →
      stat.frequency = freqSpec (allSkills analyses) nm ∧
      stat.effectiveness_distribution.high = bucketSpec (allSkills analyses) nm "high" ∧
      stat.effectiveness_distribution.medium = bucketSpec (allSkills analyses) nm "medium" ∧
      stat.effectiveness_distribution.low = bucketSpec (allSkills analyses) nm "low" ∧
      stat.avg_effectiveness =
        (stat.effectiveness_distribution.high : ℚ) / (stat.frequency : ℚ)) ∧
    get_skill_summary scenarioB = scenarioBExpected ∧
    get_skill_summary [] =
      { total_calls_analyzed := 0, unique_skills_found := 0, skill_statistics := [] } := by
  refine ⟨summary_total analyses, summary_unique analyses, ?_, ?_, rfl⟩
  · intro nm stat hmem
    obtain ⟨hm, hstat⟩ := mem_stats_characterize analyses nm stat hmem
    subst hstat
    refine ⟨statFor_frequency _ _, statFor_high _ _, statFor_medium _ _, statFor_low _ _, ?_⟩
    rw [statFor_avg_mem _ _ hm, statFor_high, statFor_frequency]
  · have h1 : get_skill_summary scenarioB =
        { total_calls_analyzed := 2
          unique_skills_found := 2
          skill_statistics :=
            [ ("Rapport", mkStat 2 ["high", "low"])
            , ("Urgency", mkStat 1 ["medium"]) ] } := rfl
    rw [h1]
    have c1 : List.count "high" ["high", "low"] = 1 := rfl
    have c2 : List.count "medium" ["high", "low"] = 0 := rfl
    have c3 : List.count "low" ["high", "low"] = 1 := rfl
    have c4 : List.count "high" ["medium"] = 0 := rfl
    have c5 : List.count "medium" ["medium"] = 1 := rfl
    have c6 : List.count "low" ["medium"] = 0 := rfl
    simp only [scenarioBExpected, mkStat, c1, c2, c3, c4, c5, c6]
    norm_num

/-- Witness for C1 at the concrete scenario-B input. -/
theorem C1_summary_correct_witness :
    ("Rapport", mkStat 2 ["high", "low"]) ∈ (get_skill_summary scenarioB).skill_statistics ∧
    (mkStat 2 ["high", "low"]).frequency = freqSpec (allSkills scenarioB) "Rapport" := by
  have hmem : ("Rapport", mkStat 2 ["high", "low"]) ∈
      (get_skill_summary scenarioB).skill_statistics := by
    have h : (get_skill_summary scenarioB).skill_statistics =
        [("Rapport", mkStat 2 ["high", "low"]), ("Urgency", mkStat 1 ["medium"])] := rfl
    rw [h]
    exact List.mem_cons_self _ _
  exact ⟨hmem,
    ((C1_summary_correct scenarioB).2.2.1 "Rapport" (mkStat 2 ["high", "low"]) hmem).1⟩

/-- C3 is false as stated: on an input whose single skill occurrence carries
the unrecognized effectiveness label "great", the bucket sum is 0 while the
frequency is 1. -/
theorem C3_counterexample :
    ("S", mkStat 1 ["great"]) ∈ (get_skill_summary c3Input).skill_statistics ∧
    ¬ ((mkStat 1 ["great"]).effectiveness_distribution.high +
        (mkStat 1 ["great"]).effectiveness_distribution.medium +
        (mkStat 1 ["great"]).effectiveness_distribution.low =
          (mkStat 1 ["great"]).frequency) := by
  constructor
  · have h : (get_skill_summary c3Input).skill_statistics = [("S", mkStat 1 ["great"])] := rfl
    rw [h]
    exact List.mem_cons_self _ _
  · intro h
    have h0 : (0 : Nat) + 0 + 0 = 1 := h
    omega

/-- C3 amended: for every entry of skill_statistics, the sum of the three
distribution buckets equals the number of occurrences of that name whose
effectiveness is one of the recognized labels (rather than the frequency). -/
theorem C3_amended_bucket_sum (analyses : List CallAnalysis) (nm : String)
    (stat : SkillStatistic)
    (h : (nm, stat) ∈ (get_skill_summary analyses).skill_statistics) :
    stat.effectiveness_distribution.high + stat.effectiveness_distribution.medium +
        stat.effectiveness_distribution.low =
      (allSkills analyses).countP
        (fun sk =>
          (sk.effectiveness == "high" || sk.effectiveness == "medium" ||
            sk.effectiveness == "low") && (sk.name == nm)) := by
  obtain ⟨hm, hstat⟩ := mem_stats_characterize analyses nm stat h
  subst hstat
  rw [statFor_high, statFor_medium, statFor_low, sum_buckets_eq_countP, countP_effsOf]

/-- Witness for the amended C3 at the concrete unrecognized-label input. -/
theorem C3_amended_bucket_sum_witness :
    ("S", mkStat 1 ["great"]) ∈ (get_skill_summary c3Input).skill_statistics ∧
    (mkStat 1 ["great"]).effectiveness_distribution.high +
        (mkStat 1 ["great"]).effectiveness_distribution.medium +
        (mkStat 1 ["great"]).effectiveness_distribution.low =
      (allSkills c3Input).countP
        (fun sk =>
          (sk.effectiveness == "high" || sk.effectiveness == "medium" ||
            sk.effectiveness == "low") && (sk.name == "S")) := by
  have hmem : ("S", mkStat 1 ["great"]) ∈ (get_skill_summary c3Input).skill_statistics := by
    have h : (get_skill_summary c3Input).skill_statistics = [("S", mkStat 1 ["great"])] := rfl
    rw [h]
    exact List.mem_cons_self _ _
  exact ⟨hmem, C3_amended_bucket_sum c3Input "S" (mkStat 1 ["great"]) hmem⟩

/-- C4: an occurrence with an unrecognized effectiveness label counts toward
the frequency but toward no bucket: for every entry, the frequency counts all
occurrences of the name, the bucket sum is at most the frequency, and they are
equal exactly when every occurrence of the name used a recognized label. -/
theorem C4_distribution_bound (analyses : List CallAnalysis) (nm : String)
    (stat : SkillStatistic)
    (h : (nm, stat) ∈ (get_skill_summary analyses).skill_statistics) :
    stat.frequency = freqSpec (allSkills analyses) nm ∧
    stat.effectiveness_distribution.high + stat.effectiveness_distribution.medium +
        stat.effectiveness_distribution.low ≤ stat.frequency ∧
    (stat.effectiveness_distribution.high + stat.effectiveness_distribution.medium +
        stat.effectiveness_distribution.low = stat.frequency ↔
      ∀ sk ∈ allSkills analyses, sk.name = nm →
        (sk.effectiveness = "high" ∨ sk.effectiveness = "medium" ∨
          sk.effectiveness = "low")) := by
  obtain ⟨hm, hstat⟩ := mem_stats_characterize analyses nm stat h
  subst hstat
  rw [statFor_high, statFor_medium, statFor_low, statFor_frequency]
  exact ⟨rfl, sum_buckets_le _ _, sum_buckets_eq_iff _ _⟩

/-- Witness for C4 at the concrete unrecognized-label input. -/
theorem C4_distribution_bound_witness :
    ("S", mkStat 1 ["great"]) ∈ (get_skill_summary c3Input).skill_statistics ∧
    (mkStat 1 ["great"]).effectiveness_distribution.high +
        (mkStat 1 ["great"]).effectiveness_distribution.medium +
        (mkStat 1 ["great"]).effectiveness_distribution.low ≤
      (mkStat 1 ["great"]).frequency := by
  have hmem : ("S", mkStat 1 ["great"]) ∈ (get_skill_summary c3Input).skill_statistics := by
    have h : (get_skill_summary c3Input).skill_statistics = [("S", mkStat 1 ["great"])] := rfl
    rw [h]
    exact List.mem_cons_self _ _
  exact ⟨hmem, (C4_distribution_bound c3Input "S" (mkStat 1 ["great"]) hmem).2.1⟩

/-- C8: get_skill_summary is deterministic, and permuting the input analyses
changes neither the total, the unique-name count, nor the statistic recorded
for any name. -/
theorem C8_order_insensitive (a b : List CallAnalysis) (hp : a.Perm b) :
    get_skill_summary a = get_skill_summary a ∧
    (get_skill_summary a).total_calls_analyzed =
      (get_skill_summary b).total_calls_analyzed ∧
    (get_skill_summary a).unique_skills_found =
      (get_skill_summary b).unique_skills_found ∧
    (∀ nm : String, dictGet? (get_skill_summary a).skill_statistics nm =
      dictGet? (get_skill_summary b).skill_statistics nm) := by
  have hs : (allSkills a).Perm (allSkills b) := allSkills_perm a b hp
  have hnames : (namesOf (allSkills a)).Perm (namesOf (allSkills b)) := hs.map Skill.name
  refine ⟨rfl, ?_, ?_, ?_⟩
  · rw [summary_total, summary_total, hp.length_eq]
  · rw [summary_unique, summary_unique, hnames.dedup.length_eq]
  · intro nm
    rw [summary_lookup, summary_lookup]
    by_cases hm : nm ∈ namesOf (allSkills a)
    · rw [if_pos hm, if_pos (hnames.mem_iff.mp hm), statFor_perm _ _ nm hs]
    · rw [if_neg hm, if_neg (fun hc => hm (hnames.mem_iff.mpr hc))]

/-- Witness for C8: scenario B against its reversal. -/
theorem C8_order_insensitive_witness :
    scenarioB.Perm scenarioBRev ∧
    (get_skill_summary scenarioB).total_calls_analyzed =
      (get_skill_summary scenarioBRev).total_calls_analyzed := by
  have hp : scenarioB.Perm scenarioBRev := (List.reverse_perm scenarioB).symm
  exact ⟨hp, (C8_order_insensitive scenarioB scenarioBRev hp).2.1⟩

/-- C10: every entry of skill_statistics has frequency at least one and an
average effectiveness between zero and one. -/
theorem C10_stat_range (analyses : List CallAnalysis) (nm : String) (stat : SkillStatistic)
    (h : (nm, stat) ∈ (get_skill_summary analyses).skill_statistics) :
    1 ≤ stat.frequency ∧ 0 ≤ stat.avg_effectiveness ∧ stat.avg_effectiveness ≤ 1 := by
  obtain ⟨hm, hstat⟩ := mem_stats_characterize analyses nm stat h
  subst hstat
  have hfreq : 0 < freqSpec (allSkills analyses) nm := freqSpec_pos _ _ hm
  have hbucket : bucketSpec (allSkills analyses) nm "high" ≤ freqSpec (allSkills analyses) nm :=
    bucketSpec_le_freqSpec _ _ _
  refine ⟨?_, ?_, ?_⟩
  · rw [statFor_frequency]
    omega
  · rw [statFor_avg_mem _ _ hm]
    exact div_nonneg (Nat.cast_nonneg _) (Nat.cast_nonneg _)
  · rw [statFor_avg_mem _ _ hm]
    rw [div_le_one (by exact_mod_cast hfreq)]
    exact_mod_cast hbucket

/-- Witness for C10 at the concrete scenario-B input. -/
theorem C10_stat_range_witness :
    ("Rapport", mkStat 2 ["high", "low"]) ∈ (get_skill_summary scenarioB).skill_statistics ∧
    1 ≤ (mkStat 2 ["high", "low"]).frequency := by
  have hmem : ("Rapport", mkStat 2 ["high", "low"]) ∈
      (get_skill_summary scenarioB).skill_statistics := by
    have h : (get_skill_summary scenarioB).skill_statistics =
        [("Rapport", mkStat 2 ["high", "low"]), ("Urgency", mkStat 1 ["medium"])] := rfl
    rw [h]
    exact List.mem_cons_self _ _
  exact ⟨hmem, (C10_stat_range scenarioB "Rapport" (mkStat 2 ["high", "low"]) hmem).1⟩


/-! Occurrence lemmas for the loader. -/

theorem containsSub_eq_false_iff (sep : List Char) (a : List Char) :
    containsSub sep a = false ↔ ∀ a1 a2 : List Char, a = a1 ++ a2 → ¬ sep <+: a2 := by
  induction a with
  | nil =>
    constructor
    · intro h a1 a2 he hpre
      have ha2 : a2 = [] := (List.append_eq_nil.mp he.symm).2
      subst ha2
      have hsep : sep = [] := List.prefix_nil.mp hpre
      subst hsep
      simp [containsSub, List.isEmpty] at h
    · intro h
      cases sep with
      | nil => exact absurd List.nil_prefix (h [] [] rfl)
      | cons c t => rfl
  | cons c rest ih =>
    simp only [containsSub, Bool.or_eq_false_iff]
    constructor
    · rintro ⟨h1, h2⟩ a1 a2 he hpre
      cases a1 with
      | nil =>
        rw [List.nil_append] at he
        subst he
        rw [← List.isPrefixOf_iff_prefix, h1] at hpre
        cases hpre
      | cons c2 a1t =>
        rw [List.cons_append] at he
        injection he with hceq hreq
        exact (ih.mp h2) a1t a2 hreq hpre
    · intro h
      refine ⟨?_, ?_⟩
      · cases hb : sep.isPrefixOf (c :: rest)
        · rfl
        · exact absurd (List.isPrefixOf_iff_prefix.mp hb) (h [] (c :: rest) rfl)
      · rw [ih]
        intro a1 a2 he hpre
        exact h (c :: a1) a2 (by rw [he, List.cons_append]) hpre

theorem containsSub_mono_prefix (s1 s2 a : List Char) (hp : s1 <+: s2)
    (h : containsSub s1 a = false) : containsSub s2 a = false := by
  rw [containsSub_eq_false_iff] at *
  intro a1 a2 he hpre
  exact h a1 a2 he (hp.trans hpre)

theorem containsSub_eq_false_of_head (c0 : Char) (sep2 a : List Char) (h : c0 ∉ a) :
    containsSub (c0 :: sep2) a = false := by
  induction a with
  | nil => rfl
  | cons c rest ih =>
    simp only [containsSub, Bool.or_eq_false_iff]
    refine ⟨?_, ih (fun hc => h (List.mem_cons_of_mem c hc))⟩
    cases hb : (c0 :: sep2).isPrefixOf (c :: rest)
    · rfl
    · obtain ⟨t, ht⟩ := List.isPrefixOf_iff_prefix.mp hb
      rw [List.cons_append] at ht
      injection ht with h1 h2
      exact absurd (List.mem_cons_self c rest) (h1 ▸ h)

theorem containsSub_append_self (sep a b : List Char) (hne : sep ≠ []) :
    containsSub sep (a ++ (sep ++ b)) = true := by
  induction a with
  | nil =>
    rw [List.nil_append]
    cases sep with
    | nil => exact absurd rfl hne
    | cons c t =>
      rw [List.cons_append]
      simp only [containsSub, Bool.or_eq_true]
      left
      rw [List.isPrefixOf_iff_prefix, ← List.cons_append]
      exact List.prefix_append _ _
  | cons c a2 ih =>
    rw [List.cons_append]
    simp only [containsSub, Bool.or_eq_true]
    right
    exact ih

theorem noHit_of (sep a b : List Char) (_hne : sep ≠ [])
    (h1 : containsSub sep a = false)
    (h2 : ∀ k : Nat, 0 < k → k < sep.length → sep.take k <:+ a →
      sep ≠ sep.take k ++ sep.take (sep.length - k)) :
    NoHit sep a b := by
  intro a1 a2 he hne2 hpre
  by_cases hlen : sep.length ≤ a2.length
  · have hpre2 : sep <+: a2 :=
      List.prefix_of_prefix_length_le hpre (List.prefix_append a2 (sep ++ b)) hlen
    exact (containsSub_eq_false_iff sep a).mp h1 a1 a2 he hpre2
  · push_neg at hlen
    have hkpos : 0 < a2.length := by
      cases a2
      · exact absurd rfl hne2
      · simp
    obtain ⟨t, ht⟩ := hpre
    have hta : (a2 ++ (sep ++ b)).take a2.length = a2 := List.take_left a2 (sep ++ b)
    have hts : (a2 ++ (sep ++ b)).take a2.length = sep.take a2.length := by
      rw [← ht, List.take_append_eq_append_take,
        Nat.sub_eq_zero_of_le (Nat.le_of_lt hlen), List.take_zero, List.append_nil]
    have ha2 : a2 = sep.take a2.length := hta.symm.trans hts
    have hsep1 : (a2 ++ (sep ++ b)).take sep.length = sep := by
      rw [← ht]
      exact List.take_left sep t
    have hsep2 : (a2 ++ (sep ++ b)).take sep.length =
        a2 ++ (sep ++ b).take (sep.length - a2.length) := by
      rw [List.take_append_eq_append_take, List.take_of_length_le (Nat.le_of_lt hlen)]
    have hsep3 : (sep ++ b).take (sep.length - a2.length) =
        sep.take (sep.length - a2.length) := by
      rw [List.take_append_eq_append_take, Nat.sub_eq_zero_of_le (Nat.sub_le _ _),
        List.take_zero, List.append_nil]
    have hfinal : sep = sep.take a2.length ++ sep.take (sep.length - a2.length) := by
      calc sep = (a2 ++ (sep ++ b)).take sep.length := hsep1.symm
        _ = a2 ++ (sep ++ b).take (sep.length - a2.length) := hsep2
        _ = sep.take a2.length ++ sep.take (sep.length - a2.length) := by
            rw [hsep3, ← ha2]
    have hsuf : sep.take a2.length <:+ a := by
      rw [← ha2]
      exact ⟨a1, he.symm⟩
    exact h2 a2.length hkpos hlen hsuf hfinal

/-! The three concrete separators admit no straddling occurrence. -/

theorem noHit_callMarker (a b : List Char) (h : containsSub callMarker a = false) :
    NoHit callMarker a b := by
  apply noHit_of _ _ _ (by decide) h
  intro k hk0 hk1 hsuf
  have hlen : callMarker.length = 11 := rfl
  rw [hlen] at hk1
  interval_cases k <;> decide

theorem noHit_endMarker (a b : List Char) (h : containsSub endHead a = false) :
    NoHit endMarker a b := by
  have h9 : containsSub endMarker a = false :=
    containsSub_mono_prefix endHead endMarker a (by decide) h
  apply noHit_of _ _ _ (by decide) h9
  intro k hk0 hk1 hsuf
  have hocc : ∀ u : List Char, endMarker.take k = endHead ++ u → False := by
    intro u hu
    rw [hu] at hsuf
    obtain ⟨t, ht⟩ := hsuf
    exact absurd (List.prefix_append endHead u)
      ((containsSub_eq_false_iff endHead a).mp h t (endHead ++ u) ht.symm)
  have hlen : endMarker.length = 9 := rfl
  rw [hlen] at hk1
  interval_cases k
  · decide
  · decide
  · decide
  · decide
  · decide
  · exact (hocc [] (by decide)).elim
  · exact (hocc ['-'] (by decide)).elim
  · exact (hocc ['-', '-'] (by decide)).elim

theorem noHit_dashSep (a b : List Char) (h1 : containsSub dashSep a = false)
    (h2 : ¬ (['-'] <:+ a)) : NoHit dashSep a b := by
  apply noHit_of _ _ _ (by decide) h1
  intro k hk0 hk1 hsuf
  have hlen : dashSep.length = 3 := rfl
  rw [hlen] at hk1
  interval_cases k
  · have hd : dashSep.take 1 = ['-'] := by decide
    rw [hd] at hsuf
    exact (h2 hsuf).elim
  · have hd : dashSep.take 2 = ['-'] ++ ['-'] := by decide
    rw [hd] at hsuf
    obtain ⟨t, ht⟩ := hsuf
    exact (h2 ⟨t ++ ['-'], by rw [List.append_assoc]; exact ht⟩).elim

/-! Behaviour of the scanners on separated content. -/

theorem splitOnAux_append (c0 : Char) (sep2 b : List Char) :
    ∀ a acc : List Char, NoHit (c0 :: sep2) a b →
      splitOnAux c0 sep2 acc (a ++ ((c0 :: sep2) ++ b)) =
        (acc.reverse ++ a) :: splitOnAux c0 sep2 [] b := by
  intro a
  induction a with
  | nil =>
    intro acc h
    rw [List.nil_append, List.cons_append]
    simp only [splitOnAux]
    have hg : (c0 :: sep2).isPrefixOf (c0 :: (sep2 ++ b)) = true := by
      rw [List.isPrefixOf_iff_prefix, ← List.cons_append]
      exact List.prefix_append _ _
    rw [hg, if_pos rfl, List.drop_left, List.append_nil]
  | cons c a2 ih =>
    intro acc h
    rw [List.cons_append]
    simp only [splitOnAux]
    have hg : (c0 :: sep2).isPrefixOf (c :: (a2 ++ ((c0 :: sep2) ++ b))) = false := by
      cases hb : (c0 :: sep2).isPrefixOf (c :: (a2 ++ ((c0 :: sep2) ++ b)))
      · rfl
      · have hpre := List.isPrefixOf_iff_prefix.mp hb
        rw [← List.cons_append] at hpre
        exact absurd hpre (h [] (c :: a2) rfl (by simp))
    rw [hg]
    simp only [Bool.false_eq_true, if_false]
    have h2 : NoHit (c0 :: sep2) a2 b := by
      intro a1 a2x he hne hpre
      exact h (c :: a1) a2x (by rw [he, List.cons_append]) hne hpre
    rw [ih (c :: acc) h2]
    simp

theorem splitOnAux_no_occurrence (c0 : Char) (sep2 : List Char) :
    ∀ a acc : List Char, containsSub (c0 :: sep2) a = false →
      splitOnAux c0 sep2 acc a = [acc.reverse ++ a] := by
  intro a
  induction a with
  | nil =>
    intro acc h
    simp [splitOnAux]
  | cons c a2 ih =>
    intro acc h
    simp only [containsSub, Bool.or_eq_false_iff] at h
    simp only [splitOnAux]
    rw [h.1]
    simp only [Bool.false_eq_true, if_false]
    rw [ih (c :: acc) h.2]
    simp

theorem splitOnceAux_append (c0 : Char) (sep2 b : List Char) :
    ∀ a acc : List Char, NoHit (c0 :: sep2) a b →
      splitOnceAux c0 sep2 acc (a ++ ((c0 :: sep2) ++ b)) = [acc.reverse ++ a, b] := by
  intro a
  induction a with
  | nil =>
    intro acc h
    rw [List.nil_append, List.cons_append]
    simp only [splitOnceAux]
    have hg : (c0 :: sep2).isPrefixOf (c0 :: (sep2 ++ b)) = true := by
      rw [List.isPrefixOf_iff_prefix, ← List.cons_append]
      exact List.prefix_append _ _
    rw [hg, if_pos rfl, List.drop_left, List.append_nil]
  | cons c a2 ih =>
    intro acc h
    rw [List.cons_append]
    simp only [splitOnceAux]
    have hg : (c0 :: sep2).isPrefixOf (c :: (a2 ++ ((c0 :: sep2) ++ b))) = false := by
      cases hb : (c0 :: sep2).isPrefixOf (c :: (a2 ++ ((c0 :: sep2) ++ b)))
      · rfl
      · have hpre := List.isPrefixOf_iff_prefix.mp hb
        rw [← List.cons_append] at hpre
        exact absurd hpre (h [] (c :: a2) rfl (by simp))
    rw [hg]
    simp only [Bool.false_eq_true, if_false]
    have h2 : NoHit (c0 :: sep2) a2 b := by
      intro a1 a2x he hne hpre
      exact h (c :: a1) a2x (by rw [he, List.cons_append]) hne hpre
    rw [ih (c :: acc) h2]
    simp

theorem replaceAux_append (c0 : Char) (sep2 b : List Char) :
    ∀ a : List Char, NoHit (c0 :: sep2) a b →
      replaceAux c0 sep2 (a ++ ((c0 :: sep2) ++ b)) = a ++ replaceAux c0 sep2 b := by
  intro a
  induction a with
  | nil =>
    intro h
    rw [List.nil_append, List.cons_append]
    simp only [replaceAux]
    have hg : (c0 :: sep2).isPrefixOf (c0 :: (sep2 ++ b)) = true := by
      rw [List.isPrefixOf_iff_prefix, ← List.cons_append]
      exact List.prefix_append _ _
    rw [hg, if_pos rfl, List.drop_left, List.nil_append]
  | cons c a2 ih =>
    intro h
    rw [List.cons_append]
    simp only [replaceAux]
    have hg : (c0 :: sep2).isPrefixOf (c :: (a2 ++ ((c0 :: sep2) ++ b))) = false := by
      cases hb : (c0 :: sep2).isPrefixOf (c :: (a2 ++ ((c0 :: sep2) ++ b)))
      · rfl
      · have hpre := List.isPrefixOf_iff_prefix.mp hb
        rw [← List.cons_append] at hpre
        exact absurd hpre (h [] (c :: a2) rfl (by simp))
    rw [hg]
    simp only [Bool.false_eq_true, if_false]
    have h2 : NoHit (c0 :: sep2) a2 b := by
      intro a1 a2x he hne hpre
      exact h (c :: a1) a2x (by rw [he, List.cons_append]) hne hpre
    rw [ih h2, List.cons_append]

theorem replaceAux_no_occurrence (c0 : Char) (sep2 : List Char) :
    ∀ a : List Char, containsSub (c0 :: sep2) a = false → replaceAux c0 sep2 a = a := by
  intro a
  induction a with
  | nil =>
    intro h
    simp [replaceAux]
  | cons c a2 ih =>
    intro h
    simp only [containsSub, Bool.or_eq_false_iff] at h
    simp only [replaceAux]
    rw [h.1]
    simp only [Bool.false_eq_true, if_false]
    rw [ih h.2]

/-! Whitespace stripping. -/

theorem stripLeft_ws_append (w a : List Char) (hw : ∀ c ∈ w, isPySpace c = true) :
    stripLeft (w ++ a) = stripLeft a :=
  List.dropWhile_append_of_pos hw

theorem stripRight_append_ws (a w : List Char) (hw : ∀ c ∈ w, isPySpace c = true) :
    stripRight (a ++ w) = stripRight a := by
  rw [stripRight, stripRight, List.reverse_append,
    List.dropWhile_append_of_pos (fun c hc => hw c (List.mem_reverse.mp hc))]

theorem pyStrip_ws_append (w a : List Char) (hw : ∀ c ∈ w, isPySpace c = true) :
    pyStrip (w ++ a) = pyStrip a := by
  rw [pyStrip, pyStrip, stripLeft_ws_append w a hw]

theorem pyStrip_append_ws (a w : List Char) (hw : ∀ c ∈ w, isPySpace c = true) :
    pyStrip (a ++ w) = pyStrip a := by
  rw [pyStrip, pyStrip]
  by_cases hsl : stripLeft a = []
  · have ha : ∀ c ∈ a, isPySpace c = true := List.dropWhile_eq_nil_iff.mp hsl
    have h2 : stripLeft (a ++ w) = [] := by
      rw [stripLeft_ws_append a w ha]
      exact List.dropWhile_eq_nil_iff.mpr hw
    rw [h2, hsl]
  · have h2 : stripLeft (a ++ w) = stripLeft a ++ w := by
      rw [stripLeft, stripLeft, List.dropWhile_append]
      have hne : (a.dropWhile isPySpace).isEmpty = false := by
        cases hq : a.dropWhile isPySpace
        · exact absurd hq hsl
        · rfl
      rw [hne]
      simp
    rw [h2, stripRight_append_ws _ _ hw]


/-! Marker-level wrappers. -/

theorem pySplit_marker_append (a b : List Char) (h : NoHit callMarker a b) :
    pySplit callMarker (a ++ (callMarker ++ b)) = a :: pySplit callMarker b := by
  have h0 := splitOnAux_append '-' ("--CALL_ID:".toList) b a [] h
  simp only [List.reverse_nil, List.nil_append] at h0
  exact h0

theorem pySplit_marker_no_occurrence (a : List Char)
    (h : containsSub callMarker a = false) : pySplit callMarker a = [a] := by
  have h0 := splitOnAux_no_occurrence '-' ("--CALL_ID:".toList) a [] h
  simp only [List.reverse_nil, List.nil_append] at h0
  exact h0

theorem pySplitOnce_dashSep (a b : List Char) (h1 : containsSub dashSep a = false)
    (h2 : ¬ (['-'] <:+ a)) :
    pySplitOnce dashSep (a ++ (dashSep ++ b)) = [a, b] := by
  have h0 := splitOnceAux_append '-' ("--".toList) b a [] (noHit_dashSep a b h1 h2)
  simp only [List.reverse_nil, List.nil_append] at h0
  exact h0

theorem pyReplaceDel_endMarker (a b : List Char) (h : containsSub endHead a = false) :
    pyReplaceDel endMarker (a ++ (endMarker ++ b)) =
      a ++ pyReplaceDel endMarker b := by
  have h0 := replaceAux_append '-' ("--END---".toList) b a (noHit_endMarker a b h)
  exact h0

theorem pyReplaceDel_no_occurrence (a : List Char)
    (h : containsSub endHead a = false) : pyReplaceDel endMarker a = a := by
  have h9 : containsSub endMarker a = false :=
    containsSub_mono_prefix endHead endMarker a (by decide) h
  exact replaceAux_no_occurrence '-' ("--END---".toList) a h9

/-! Parsing one well-formed section. -/

theorem processSection_wf (s : RawSection) (hwf : WFSection s) :
    processSection (gapOf s) =
      some { call_id := pyStrip s.ident, transcript := pyStrip s.body } := by
  obtain ⟨h1, h2, h3, h4, h5⟩ := hwf
  have hend : containsSub endMarker (gapOf s) = true := by
    have hshape : gapOf s = (s.ident ++ (dashSep ++ s.body)) ++ (endMarker ++ s.trail) := by
      rw [gapOf]
      simp [List.append_assoc]
    rw [hshape]
    exact containsSub_append_self endMarker _ s.trail (by decide)
  have hsplit : pySplitOnce dashSep (gapOf s) =
      [s.ident, s.body ++ (endMarker ++ s.trail)] := by
    rw [gapOf]
    exact pySplitOnce_dashSep s.ident (s.body ++ (endMarker ++ s.trail)) h1 h2
  have hdashws : containsSub endHead s.trail = false := by
    apply containsSub_eq_false_of_head
    intro hc
    exact absurd (h5 '-' hc) (by decide)
  have hrepl : pyReplaceDel endMarker (s.body ++ (endMarker ++ s.trail)) =
      s.body ++ s.trail := by
    rw [pyReplaceDel_endMarker s.body s.trail h3, pyReplaceDel_no_occurrence s.trail hdashws]
  have hcond : processSection (gapOf s) =
      some { call_id := pyStrip ((pySplitOnce dashSep (gapOf s)).headD [])
             transcript := pyStrip (pyReplaceDel endMarker
               (if 1 < (pySplitOnce dashSep (gapOf s)).length
                then (pySplitOnce dashSep (gapOf s)).getD 1 []
                else [])) } := by
    unfold processSection
    rw [hend]
    rfl
  rw [hcond, hsplit]
  show some ({ call_id := pyStrip s.ident
               transcript :=
                 pyStrip (pyReplaceDel endMarker (s.body ++ (endMarker ++ s.trail))) } :
      TranscriptRecord) =
    some ({ call_id := pyStrip s.ident, transcript := pyStrip s.body } : TranscriptRecord)
  rw [hrepl, pyStrip_append_ws s.body s.trail h5]

theorem processSection_no_end (sec : List Char)
    (h : containsSub endMarker sec = false) : processSection sec = none := by
  unfold processSection
  rw [h]
  simp

/-! Parsing a whole file. -/

theorem pySplit_sections (gaps : List (List Char)) :
    ∀ pre : List Char, containsSub callMarker pre = false →
      (∀ g ∈ gaps, containsSub callMarker g = false) →
      pySplit callMarker (pre ++ (gaps.map (fun gp => callMarker ++ gp)).flatten) =
        pre :: gaps := by
  induction gaps with
  | nil =>
    intro pre hpre _
    simp only [List.map_nil, List.flatten_nil, List.append_nil]
    exact pySplit_marker_no_occurrence pre hpre
  | cons g gaps2 ih =>
    intro pre hpre hgaps
    simp only [List.map_cons, List.flatten_cons]
    rw [List.append_assoc]
    rw [pySplit_marker_append pre _ (noHit_callMarker pre _ hpre)]
    rw [ih g (hgaps g (List.mem_cons_self g gaps2))
      (fun g2 hg2 => hgaps g2 (List.mem_cons_of_mem g hg2))]

theorem filterMap_eq_map_of {α β : Type} (l : List α) (f : α → Option β) (g : α → β)
    (h : ∀ x ∈ l, f x = some (g x)) : l.filterMap f = l.map g := by
  induction l with
  | nil => rfl
  | cons x t ih =>
    rw [List.filterMap_cons, h x (List.mem_cons_self x t),
      ih (fun y hy => h y (List.mem_cons_of_mem x hy)), List.map_cons]

theorem load_renderFile (pre : List Char) (secs : List RawSection)
    (hpre : containsSub callMarker pre = false)
    (hwf : ∀ s ∈ secs, WFSection s) :
    load_transcriptions (renderFile pre secs) =
      secs.map (fun s => { call_id := pyStrip s.ident, transcript := pyStrip s.body }) := by
  simp only [load_transcriptions, renderFile]
  have hmaps : secs.map renderSection = (secs.map gapOf).map (fun gp => callMarker ++ gp) := by
    rw [List.map_map]
    rfl
  have hg : ∀ g ∈ secs.map gapOf, containsSub callMarker g = false := by
    intro g hgm
    obtain ⟨s, hs, heq⟩ := List.mem_map.mp hgm
    rw [← heq]
    exact (hwf s hs).2.2.2.1
  rw [hmaps, pySplit_sections (secs.map gapOf) pre hpre hg]
  simp only [List.drop_succ_cons, List.drop_zero]
  rw [List.filterMap_map]
  apply filterMap_eq_map_of
  intro s hs
  exact processSection_wf s (hwf s hs)


/-! Evaluation helpers for concrete inputs. -/

theorem processSection_eval (idt rest : List Char)
    (h1 : containsSub dashSep idt = false) (h2 : ¬ (['-'] <:+ idt))
    (hend : containsSub endMarker (idt ++ (dashSep ++ rest)) = true) :
    processSection (idt ++ (dashSep ++ rest)) =
      some { call_id := pyStrip idt
             transcript := pyStrip (pyReplaceDel endMarker rest) } := by
  have hsplit : pySplitOnce dashSep (idt ++ (dashSep ++ rest)) = [idt, rest] :=
    pySplitOnce_dashSep idt rest h1 h2
  have hcond : processSection (idt ++ (dashSep ++ rest)) =
      some { call_id := pyStrip ((pySplitOnce dashSep (idt ++ (dashSep ++ rest))).headD [])
             transcript := pyStrip (pyReplaceDel endMarker
               (if 1 < (pySplitOnce dashSep (idt ++ (dashSep ++ rest))).length
                then (pySplitOnce dashSep (idt ++ (dashSep ++ rest))).getD 1 []
                else [])) } := by
    unfold processSection
    rw [hend]
    rfl
  rw [hcond, hsplit]
  rfl

theorem load_marker_prefix (pre : List Char) (gaps : List (List Char))
    (hpre : containsSub callMarker pre = false)
    (hgaps : ∀ g ∈ gaps, containsSub callMarker g = false) :
    load_transcriptions (pre ++ (gaps.map (fun gp => callMarker ++ gp)).flatten) =
      gaps.filterMap processSection := by
  simp only [load_transcriptions]
  rw [pySplit_sections gaps pre hpre hgaps]
  simp only [List.drop_succ_cons, List.drop_zero]

/-! Claims about the loader. -/

/-- C2 is false as stated: non-whitespace noise after a well-formed section is
appended to that section's transcript instead of being ignored, so the record
is not the stripped marked text. -/
theorem C2_counterexample :
    load_transcriptions ("---CALL_ID:A---\nhello\n---END---NOISE".toList) =
      [{ call_id := "A".toList, transcript := "hello\nNOISE".toList }] ∧
    ("hello\nNOISE".toList : List Char) ≠ "hello".toList := by
  constructor
  · have heq : "---CALL_ID:A---\nhello\n---END---NOISE".toList =
        ([] : List Char) ++
          ((["A---\nhello\n---END---NOISE".toList].map (fun gp => callMarker ++ gp)).flatten) := by
      decide
    rw [heq, load_marker_prefix [] _ (by decide) (by decide)]
    have hshape : ("A---\nhello\n---END---NOISE".toList : List Char) =
        "A".toList ++ (dashSep ++ "\nhello\n---END---NOISE".toList) := by decide
    have hps : processSection ("A---\nhello\n---END---NOISE".toList) =
        some { call_id := "A".toList, transcript := "hello\nNOISE".toList } := by
      rw [hshape, processSection_eval "A".toList _ (by decide) (by decide) (by decide)]
      have hs2 : ("\nhello\n---END---NOISE".toList : List Char) =
          "\nhello\n".toList ++ (endMarker ++ "NOISE".toList) := by decide
      rw [hs2, pyReplaceDel_endMarker _ _ (by decide),
        pyReplaceDel_no_occurrence _ (by decide)]
      decide
    rw [List.filterMap_cons, hps]
    rfl
  · decide

/-- C2 amended: for any number of well-formed sections (identifier free of a
three-dash run and not ending in a dash, body free of the substring that
opens the closing marker, no opening marker inside the section) separated and
followed by whitespace only, after a prefix free of the opening marker,
load_transcriptions returns exactly one record per section in order, with
identifier and body stripped of leading and trailing whitespace; in
particular the scenario-A input yields its single expected record. -/
theorem C2_amended_roundtrip (pre : List Char) (secs : List RawSection)
    (hpre : containsSub callMarker pre = false) (hwf : ∀ s ∈ secs, WFSection s) :
    load_transcriptions (renderFile pre secs) =
      secs.map (fun s => { call_id := pyStrip s.ident, transcript := pyStrip s.body }) ∧
    (load_transcriptions (renderFile pre secs)).length = secs.length ∧
    load_transcriptions ("---CALL_ID:C1---\nHello world\n---END---".toList) =
      [{ call_id := "C1".toList, transcript := "Hello world".toList }] := by
  refine ⟨load_renderFile pre secs hpre hwf, ?_, ?_⟩
  · rw [load_renderFile pre secs hpre hwf, List.length_map]
  · have h2 : ∀ s ∈ [scenarioASection], WFSection s := by
      intro s hs
      rw [List.mem_singleton] at hs
      subst hs
      decide
    have heq : "---CALL_ID:C1---\nHello world\n---END---".toList =
        renderFile [] [scenarioASection] := by decide
    rw [heq, load_renderFile [] [scenarioASection] (by decide) h2]
    decide

/-- Witness for the amended C2: marker-free noise before one well-formed
section. -/
theorem C2_amended_roundtrip_witness :
    containsSub callMarker ("junk ".toList) = false ∧
    (∀ s ∈ [scenarioASection], WFSection s) ∧
    load_transcriptions (renderFile ("junk ".toList) [scenarioASection]) =
      [{ call_id := "C1".toList, transcript := "Hello world".toList }] := by
  have h1 : containsSub callMarker ("junk ".toList) = false := by decide
  have h2 : ∀ s ∈ [scenarioASection], WFSection s := by
    intro s hs
    rw [List.mem_singleton] at hs
    subst hs
    decide
  refine ⟨h1, h2, ?_⟩
  rw [(C2_amended_roundtrip ("junk ".toList) [scenarioASection] h1 h2).1]
  decide


/-- C5 is false as stated: an occurrence of the closing marker inside the
section is deleted by the replace call and the text after it is kept, so the
transcript is neither the text up to the closing marker nor the interior text
preserved verbatim. -/
theorem C5_counterexample :
    load_transcriptions ("---CALL_ID:X---A---END---B---END---".toList) =
      [{ call_id := "X".toList, transcript := "AB".toList }] ∧
    ("AB".toList : List Char) ≠ "A".toList ∧
    ("AB".toList : List Char) ≠ "A---END---B".toList := by
  refine ⟨?_, by decide, by decide⟩
  have heq : "---CALL_ID:X---A---END---B---END---".toList =
      ([] : List Char) ++
        ((["X---A---END---B---END---".toList].map (fun gp => callMarker ++ gp)).flatten) := by
    decide
  rw [heq, load_marker_prefix [] _ (by decide) (by decide)]
  have hsh : ("X---A---END---B---END---".toList : List Char) =
      "X".toList ++ (dashSep ++ "A---END---B---END---".toList) := by decide
  have hps : processSection ("X---A---END---B---END---".toList) =
      some { call_id := "X".toList, transcript := "AB".toList } := by
    rw [hsh, processSection_eval "X".toList _ (by decide) (by decide) (by decide)]
    have hs2 : ("A---END---B---END---".toList : List Char) =
        "A".toList ++ (endMarker ++ "B---END---".toList) := by decide
    have hs3 : ("B---END---".toList : List Char) =
        "B".toList ++ (endMarker ++ ([] : List Char)) := by decide
    rw [hs2, pyReplaceDel_endMarker _ _ (by decide), hs3,
      pyReplaceDel_endMarker _ _ (by decide), pyReplaceDel_no_occurrence [] (by decide)]
    decide
  rw [List.filterMap_cons, hps]
  rfl

/-- C5 amended: the transcript is the remainder of the section with every
occurrence of the closing marker deleted left to right and the surrounding
text concatenated, then stripped; text other than the deleted markers,
including three-dash runs inside the identifier boundary and interior
whitespace, is preserved verbatim. Stated for a section whose remainder
carries one interior closing marker between two marker-free bodies. -/
theorem C5_amended_replace (idt b1 b2 : List Char)
    (h1 : containsSub dashSep idt = false) (h2 : ¬ (['-'] <:+ idt))
    (hb1 : containsSub endHead b1 = false) (hb2 : containsSub endHead b2 = false)
    (hm : containsSub callMarker
      (idt ++ (dashSep ++ (b1 ++ (endMarker ++ (b2 ++ endMarker))))) = false) :
    load_transcriptions
        (callMarker ++ (idt ++ (dashSep ++ (b1 ++ (endMarker ++ (b2 ++ endMarker)))))) =
      [{ call_id := pyStrip idt, transcript := pyStrip (b1 ++ b2) }] := by
  have heq : callMarker ++ (idt ++ (dashSep ++ (b1 ++ (endMarker ++ (b2 ++ endMarker))))) =
      ([] : List Char) ++
        (([idt ++ (dashSep ++ (b1 ++ (endMarker ++ (b2 ++ endMarker))))].map
          (fun gp => callMarker ++ gp)).flatten) := by
    simp
  have hgaps : ∀ g ∈ [idt ++ (dashSep ++ (b1 ++ (endMarker ++ (b2 ++ endMarker))))],
      containsSub callMarker g = false := by
    intro g hg
    rw [List.mem_singleton] at hg
    subst hg
    exact hm
  rw [heq, load_marker_prefix [] _ (by decide) hgaps]
  have hend : containsSub endMarker
      (idt ++ (dashSep ++ (b1 ++ (endMarker ++ (b2 ++ endMarker))))) = true := by
    have hsh : idt ++ (dashSep ++ (b1 ++ (endMarker ++ (b2 ++ endMarker)))) =
        (idt ++ (dashSep ++ b1)) ++ (endMarker ++ (b2 ++ endMarker)) := by
      simp [List.append_assoc]
    rw [hsh]
    exact containsSub_append_self endMarker _ _ (by decide)
  have hrepl : pyReplaceDel endMarker (b1 ++ (endMarker ++ (b2 ++ endMarker))) =
      b1 ++ b2 := by
    rw [pyReplaceDel_endMarker b1 _ hb1]
    have hb2e : b2 ++ endMarker = b2 ++ (endMarker ++ ([] : List Char)) := by simp
    rw [hb2e, pyReplaceDel_endMarker b2 [] hb2, pyReplaceDel_no_occurrence [] (by decide)]
    simp
  have hps := processSection_eval idt (b1 ++ (endMarker ++ (b2 ++ endMarker))) h1 h2 hend
  rw [hrepl] at hps
  rw [List.filterMap_cons, hps]
  rfl

/-- Witness for the amended C5 at the concrete two-marker input. -/
theorem C5_amended_replace_witness :
    load_transcriptions ("---CALL_ID:X---A---END---B---END---".toList) =
      [{ call_id := "X".toList, transcript := "AB".toList }] := by
  have h := C5_amended_replace "X".toList "A".toList "B".toList (by decide) (by decide)
    (by decide) (by decide) (by decide)
  have heq : "---CALL_ID:X---A---END---B---END---".toList =
      callMarker ++ ("X".toList ++ (dashSep ++
        ("A".toList ++ (endMarker ++ ("B".toList ++ endMarker))))) := by decide
  rw [heq, h]
  decide

/-- C6: a section opened by the marker but containing no closing marker
produces no record and raises no error, and a well-formed section following
it is still parsed into its correct record. -/
theorem C6_dropped (g : List Char) (s : RawSection)
    (hg1 : containsSub endMarker g = false)
    (hg2 : containsSub callMarker g = false)
    (hs : WFSection s) :
    load_transcriptions ((callMarker ++ g) ++ (callMarker ++ gapOf s)) =
      [{ call_id := pyStrip s.ident, transcript := pyStrip s.body }] := by
  have heq : (callMarker ++ g) ++ (callMarker ++ gapOf s) =
      ([] : List Char) ++ (([g, gapOf s].map (fun gp => callMarker ++ gp)).flatten) := by
    simp [List.append_assoc]
  have hgaps : ∀ gp ∈ [g, gapOf s], containsSub callMarker gp = false := by
    intro gp hgp
    rcases List.mem_cons.mp hgp with h | h
    · subst h
      exact hg2
    · rw [List.mem_singleton] at h
      subst h
      exact hs.2.2.2.1
  rw [heq, load_marker_prefix [] _ (by decide) hgaps]
  rw [List.filterMap_cons, processSection_no_end g hg1]
  rw [List.filterMap_cons, processSection_wf s hs]
  rfl

/-- Witness for C6: an orphan section followed by the scenario-A section. -/
theorem C6_dropped_witness :
    load_transcriptions ((callMarker ++ "orphan section text".toList) ++
        (callMarker ++ gapOf scenarioASection)) =
      [{ call_id := "C1".toList, transcript := "Hello world".toList }] := by
  have h := C6_dropped "orphan section text".toList scenarioASection (by decide) (by decide)
    (by decide)
  rw [h]
  decide

/-- C7: a section of the exact form ---CALL_ID:<id>------END--- parses to a
record with the identifier and an empty transcript rather than failing, for
every identifier that is itself well formed (free of a three-dash run, not
ending in a dash, not producing an opening-marker occurrence, already
stripped). -/
theorem C7_missing_separator (idt : List Char)
    (h1 : containsSub dashSep idt = false) (h2 : ¬ (['-'] <:+ idt))
    (h3 : containsSub callMarker (idt ++ "------END---".toList) = false)
    (h4 : pyStrip idt = idt) :
    load_transcriptions (callMarker ++ (idt ++ "------END---".toList)) =
      [{ call_id := idt, transcript := [] }] := by
  have hsh : idt ++ "------END---".toList = idt ++ (dashSep ++ endMarker) := by
    have hde : ("------END---".toList : List Char) = dashSep ++ endMarker := by decide
    rw [hde]
  have heq : callMarker ++ (idt ++ "------END---".toList) =
      ([] : List Char) ++
        (([idt ++ (dashSep ++ endMarker)].map (fun gp => callMarker ++ gp)).flatten) := by
    rw [hsh]
    simp
  have hgaps : ∀ gp ∈ [idt ++ (dashSep ++ endMarker)], containsSub callMarker gp = false := by
    intro gp hgp
    rw [List.mem_singleton] at hgp
    subst hgp
    rw [← hsh]
    exact h3
  rw [heq, load_marker_prefix [] _ (by decide) hgaps]
  have hend : containsSub endMarker (idt ++ (dashSep ++ endMarker)) = true := by
    have hsh2 : idt ++ (dashSep ++ endMarker) =
        (idt ++ dashSep) ++ (endMarker ++ ([] : List Char)) := by
      simp [List.append_assoc]
    rw [hsh2]
    exact containsSub_append_self endMarker _ _ (by decide)
  have hrepl : pyReplaceDel endMarker endMarker = ([] : List Char) := by
    have h0 := pyReplaceDel_endMarker [] [] (by decide)
    simp only [List.nil_append, List.append_nil] at h0
    rw [h0, pyReplaceDel_no_occurrence [] (by decide)]
  have hps := processSection_eval idt endMarker h1 h2 hend
  rw [hrepl] at hps
  rw [List.filterMap_cons, hps, h4]
  rfl

/-- Witness for C7 at a concrete identifier. -/
theorem C7_missing_separator_witness :
    load_transcriptions (callMarker ++ ("X7".toList ++ "------END---".toList)) =
      [{ call_id := "X7".toList, transcript := [] }] :=
  C7_missing_separator "X7".toList (by decide) (by decide) (by decide) (by decide)

/-- C9 is false as stated: a section whose identifier region is empty yields a
record with an empty call_id. -/
theorem C9_counterexample :
    load_transcriptions ("---CALL_ID:---END---".toList) =
      [{ call_id := [], transcript := "END---".toList }] ∧
    ({ call_id := [], transcript := "END---".toList } : TranscriptRecord).call_id = [] := by
  refine ⟨?_, rfl⟩
  have heq : "---CALL_ID:---END---".toList =
      ([] : List Char) ++ ((["---END---".toList].map (fun gp => callMarker ++ gp)).flatten) := by
    decide
  rw [heq, load_marker_prefix [] _ (by decide) (by decide)]
  have hsh : ("---END---".toList : List Char) = [] ++ (dashSep ++ "END---".toList) := by decide
  have hps := processSection_eval [] "END---".toList (by decide) (by decide) (by decide)
  have hrepl : pyReplaceDel endMarker ("END---".toList) = "END---".toList :=
    pyReplaceDel_no_occurrence _ (by decide)
  rw [hrepl] at hps
  rw [hsh, List.filterMap_cons, hps]
  decide

/-- C9 amended: every record produced from a file of well-formed sections has
a non-empty call_id provided each section's identifier strips to a non-empty
string; an empty or whitespace-only identifier region yields an empty
call_id. -/
theorem C9_amended_nonempty (pre : List Char) (secs : List RawSection)
    (hpre : containsSub callMarker pre = false) (hwf : ∀ s ∈ secs, WFSection s)
    (hids : ∀ s ∈ secs, pyStrip s.ident ≠ []) :
    ∀ r ∈ load_transcriptions (renderFile pre secs), r.call_id ≠ [] := by
  intro r hr
  rw [load_renderFile pre secs hpre hwf] at hr
  obtain ⟨s, hs, heq⟩ := List.mem_map.mp hr
  rw [← heq]
  exact hids s hs

/-- Witness for the amended C9 at the scenario-A input. -/
theorem C9_amended_nonempty_witness :
    ({ call_id := "C1".toList, transcript := "Hello world".toList } : TranscriptRecord) ∈
      load_transcriptions (renderFile [] [scenarioASection]) ∧
    ({ call_id := "C1".toList, transcript := "Hello world".toList } :
      TranscriptRecord).call_id ≠ [] := by
  have h1 : containsSub callMarker ([] : List Char) = false := by decide
  have h2 : ∀ s ∈ [scenarioASection], WFSection s := by
    intro s hs
    rw [List.mem_singleton] at hs
    subst hs
    decide
  have h3 : ∀ s ∈ [scenarioASection], pyStrip s.ident ≠ [] := by
    intro s hs
    rw [List.mem_singleton] at hs
    subst hs
    decide
  have hmem : ({ call_id := "C1".toList, transcript := "Hello world".toList } :
      TranscriptRecord) ∈ load_transcriptions (renderFile [] [scenarioASection]) := by
    rw [load_renderFile [] [scenarioASection] h1 h2]
    decide
  exact ⟨hmem, C9_amended_nonempty [] [scenarioASection] h1 h2 h3 _ hmem⟩

end SkillDiffuser
